import Mathlib

/-!
Verification of the stm32-gesture-key signal-processing core.

The C++ sources are shallowly embedded as follows:
* `float` values are idealised as exact rationals (`ℚ`) where no square root
  occurs (trimming, the moving-average filter, the save path), and as reals
  (`ℝ`) where `sqrt` occurs (normalisation, correlation, the unlock path);
  a `NaN` result is represented by `Option.none`.
* `int16_t` values are integers (`ℤ`) with explicit wrapping modulo `2^16`
  where the C arithmetic can overflow.
* An out-of-bounds vector dereference (undefined behaviour) is represented by
  `Option.none` at the function's result.
-/

/-! ## Gesture trimmer (`src/utilities.cpp`, `trim_gyro_data`) -/

/-- One 3-axis gesture sample, float idealised as `ℚ`. -/
abbrev QSample : Type := ℚ × ℚ × ℚ

/-- `float threshold = 0.00001;` in `trim_gyro_data`. -/
def trim_threshold : ℚ := 1 / 100000

/-- The while-loop condition of both scans in `trim_gyro_data`:
`abs(p[0]) <= threshold && abs(p[1]) <= threshold && abs(p[2]) <= threshold`. -/
def trimInactive (p : QSample) : Bool :=
  decide (|p.1| ≤ trim_threshold ∧ |p.2.1| ≤ trim_threshold ∧ |p.2.2| ≤ trim_threshold)

/-- The first scan of `trim_gyro_data`: starting at `data.begin()`, advance
while the sample is inactive.  The C++ loop dereferences `*ptr` before any
bounds test (the `ptr == data.end()` check comes only after the loop), so if
every sample is inactive the loop dereferences past the end of the vector:
that undefined behaviour is modelled by `none`. -/
def firstActive : List QSample → Option ℕ
  | [] => none
  | p :: rest => if trimInactive p then (firstActive rest).map (· + 1) else some 0

/-- `trim_gyro_data`: find the first active sample (left bound) and, scanning
from the back, the last active sample (right bound); the copy-and-erase
compaction then keeps exactly `data[left..right]`.  `none` models the
out-of-bounds dereference that occurs when no sample is active (including the
empty vector).  The backwards scan is the forward scan of the reversed list;
it never leaves the vector because it only runs once an active sample exists. -/
def trim_gyro_data (data : List QSample) : Option (List QSample) :=
  match firstActive data with
  | none => none
  | some l =>
    match firstActive data.reverse with
    | none => none
    | some k =>
      let r := data.length - 1 - k
      some ((data.drop l).take (r - l + 1))

/-! ## Save path (`src/main.cpp`, `KEY_FLAG` branch of `gyroscope_thread`) -/

/-- The two messages the save branch can display; neither is a rejection. -/
inductive SaveOutcome : Type
  | saved      -- "Key saved."
  | newSaved   -- "New key saved."
deriving DecidableEq

/-- The `KEY_FLAG` branch of `gyroscope_thread`: whether or not a key is
already stored, `temp_key` unconditionally becomes the new `gesture_key`;
there is no emptiness check on `temp_key`. -/
def record_save (gesture_key temp_key : List QSample) : List QSample × SaveOutcome :=
  if gesture_key.isEmpty then (temp_key, SaveOutcome.saved)
  else (temp_key, SaveOutcome.newSaved)

/-- A whole record-requested session after the acquisition loop: trim the
recording, then save it.  `none` models the out-of-bounds dereference inside
`trim_gyro_data` on a fully inactive recording. -/
def record_session (gesture_key recorded : List QSample) :
    Option (List QSample × SaveOutcome) :=
  (trim_gyro_data recorded).map (record_save gesture_key)

/-! ## Gyroscope calibration (`src/gyro.cpp`, `CalibrateGyroscope`) -/

/-- Wrap an integer into the `int16_t` range `[-32768, 32767]`, modelling the
truncation that happens when the promoted `int` result of `sumX + raw` is
stored back into the `int16_t` accumulator `sumX`. -/
def wrap16 (x : ℤ) : ℤ := (x + 32768) % 65536 - 32768

/-- `sumX >> 7` on an `int16_t` value: an arithmetic right shift by 7, i.e.
floor division by 128. -/
def shr7 (x : ℤ) : ℤ := Int.fdiv x 128

/-- One iteration of the calibration loop for one axis: `sum += raw` into the
`int16_t` accumulator, and `threshold = max(threshold, raw)`.  The threshold
is the global `x_threshold`/`y_threshold`/`z_threshold`, which the loop never
seeds: it continues from whatever value the global held before the call
(zero from static initialisation at boot, or the value left by an earlier
calibration). -/
def calibStep (st : ℤ × ℤ) (raw : ℤ) : ℤ × ℤ :=
  (wrap16 (st.1 + raw), max st.2 raw)

/-- One axis of `CalibrateGyroscope`: fold the 128-iteration loop over the
samples delivered by the stream, then `bias = sum >> 7`.  Returns
`(bias, threshold)`. -/
def calibrateAxis (thr0 : ℤ) (sample : ℕ → ℤ) : ℤ × ℤ :=
  let s := (List.range 128).foldl (fun st i => calibStep st (sample i)) (0, thr0)
  (shr7 s.1, s.2)

/-- `CalibrateGyroscope`: the loop body updates the three axes independently,
so the whole call is the per-axis fold applied to each axis of the stream.
`thr0` is the prior contents of the three threshold globals.  Returns the
per-axis biases (`x_sample`, `y_sample`, `z_sample`) and the per-axis
thresholds. -/
def CalibrateGyroscope (thr0 : ℤ × ℤ × ℤ) (stream : ℕ → ℤ × ℤ × ℤ) :
    (ℤ × ℤ × ℤ) × (ℤ × ℤ × ℤ) :=
  let x := calibrateAxis thr0.1 (fun i => (stream i).1)
  let y := calibrateAxis thr0.2.1 (fun i => (stream i).2.1)
  let z := calibrateAxis thr0.2.2 (fun i => (stream i).2.2)
  ((x.1, y.1, z.1), (x.2, y.2, z.2))

/-! ## Gyroscope initialisation (`src/gyro.cpp`, `InitiateGyroscope`) -/

/-- The full-scale selector written to `CTRL_REG_4`.  The four named values
are the constants from `system_config.h` (not among the sources); any other
register value is `other`. -/
inductive FullScaleSel : Type
  | fs245
  | fs500
  | fs2000
  | fs2000alt
  | other (code : ℕ)
deriving DecidableEq

/-- Modelled from the spec: the numeric `SENSITIVITY_*` constants live in
`system_config.h`, which is not among the sources; the spec fixes them only
as "a fixed scale factor selected from the sensor's configured full-scale
range".  The values below are placeholders whose exact magnitudes no theorem
depends on. -/
def SENSITIVITY_245 : ℚ := 875 / 100000

/-- Modelled from the spec: see `SENSITIVITY_245`. -/
def SENSITIVITY_500 : ℚ := 1750 / 100000

/-- Modelled from the spec: see `SENSITIVITY_245`. -/
def SENSITIVITY_2000 : ℚ := 7000 / 100000

/-- The `switch (init_parameters->conf4)` of `InitiateGyroscope`: there is no
`default` case, so an unrecognized selector leaves the global `sensitivity`
at whatever value it held before (0.0 from static initialisation at boot, or
the value set by an earlier initialisation). -/
def selectSensitivity (conf4 : FullScaleSel) (prev : ℚ) : ℚ :=
  match conf4 with
  | FullScaleSel.fs245 => SENSITIVITY_245
  | FullScaleSel.fs500 => SENSITIVITY_500
  | FullScaleSel.fs2000 => SENSITIVITY_2000
  | FullScaleSel.fs2000alt => SENSITIVITY_2000
  | FullScaleSel.other _ => prev

/-- The state of the gyro driver that `InitiateGyroscope` touches:
the `sensitivity` global and whether calibration has been run. -/
structure GyroState : Type where
  sensitivity : ℚ
  calibrated : Bool
deriving DecidableEq

/-- The state at boot: `float sensitivity = 0.0f;` and no calibration yet. -/
def bootGyroState : GyroState := ⟨0, false⟩

/-- `InitiateGyroscope`: configure the registers, run the sensitivity switch,
then unconditionally call `CalibrateGyroscope`.  The function returns `void`:
it has no error channel, so the resulting state is all a caller can observe;
`calibrated = true` records that calibration ran to completion. -/
def InitiateGyroscope (conf4 : FullScaleSel) (st : GyroState) : GyroState :=
  { sensitivity := selectSensitivity conf4 st.sensitivity, calibrated := true }

/-! ## Moving-average filter (`src/main.cpp`, `movingAverageFilter`) -/

/-- `#define WINDOW_SIZE 5` from `utilities.h`. -/
def WINDOW_SIZE : ℕ := 5

/-- The per-axis filter state: the ring buffer (`gyro_buffer_x` etc.), the
ring position (`gyro_index_x` etc.) and the running sum (`gyro_sum_x` etc.). -/
structure FilterState : Type where
  buffer : Fin 5 → ℚ
  index : ℕ
  sum : ℚ

/-- The zero-initialised globals of `main.cpp`: buffer of five zeros,
index 0, sum 0. -/
def initFilterState : FilterState := ⟨fun _ => 0, 0, 0⟩

/-- `movingAverageFilter`: subtract the element about to be overwritten from
the sum, store the new value, add it to the sum, advance the index modulo
`WINDOW_SIZE`, return `sum / WINDOW_SIZE`.  The source indexes
`buffer[index]` directly; `index < 5` is maintained by the modular update, so
reducing the access position mod 5 is the identity on every reachable state. -/
def movingAverageFilter (new_value : ℚ) (st : FilterState) : ℚ × FilterState :=
  let pos : Fin 5 := ⟨st.index % 5, Nat.mod_lt _ (by norm_num)⟩
  let sum1 := st.sum - st.buffer pos
  let buffer1 := Function.update st.buffer pos new_value
  let sum2 := sum1 + new_value
  (sum2 / 5, ⟨buffer1, (st.index + 1) % 5, sum2⟩)

/-- Feed a list of samples through the filter in order, keeping the state. -/
def pushAll (xs : List ℚ) (st : FilterState) : FilterState :=
  xs.foldl (fun s x => (movingAverageFilter x s).2) st

/-! ## Normalisation and correlation (`src/main.cpp`, `src/utilities.cpp`)

These functions take square roots, so the embedding uses `ℝ`; `NaN` results
are `none`.  Comparisons on `ℝ` are classical, hence the `noncomputable`
definitions. -/

open scoped Classical

/-- One 3-axis gesture sample on the real-valued side of the pipeline. -/
abbrev RSample : Type := ℝ × ℝ × ℝ

/-- Axis projection, `point[i]` on an `array<float, 3>`. -/
def axisVal (i : Fin 3) (p : RSample) : ℝ :=
  match i with
  | 0 => p.1
  | 1 => p.2.1
  | 2 => p.2.2

/-- The loop body of `normalize` for one point: divide by the Euclidean
magnitude when it is positive, otherwise leave the point unchanged. -/
noncomputable def normalizePoint (p : RSample) : RSample :=
  let magnitude := Real.sqrt (p.1 * p.1 + p.2.1 * p.2.1 + p.2.2 * p.2.2)
  if magnitude > 0 then (p.1 / magnitude, p.2.1 / magnitude, p.2.2 / magnitude)
  else p

/-- `normalize` from `main.cpp`: rescale each sample to unit magnitude,
leaving zero samples unchanged. -/
noncomputable def Sentry.normalize (data : List RSample) : List RSample :=
  data.map normalizePoint

/-- The running state of the summation loop in `correlation`:
`sum_a, sum_b, sum_ab, sq_sum_a, sq_sum_b`. -/
structure CorrSums : Type where
  sum_a : ℝ
  sum_b : ℝ
  sum_ab : ℝ
  sq_sum_a : ℝ
  sq_sum_b : ℝ

/-- One iteration of the summation loop of `correlation`, exactly as written:
`delta_a = a[i] - sum_a; sum_a += delta_a;` and likewise for `b`, with
`sum_ab += delta_a * delta_b` and the two square sums. -/
def corrStep (s : CorrSums) (p : ℝ × ℝ) : CorrSums :=
  let delta_a := p.1 - s.sum_a
  let delta_b := p.2 - s.sum_b
  { sum_a := s.sum_a + delta_a
    sum_b := s.sum_b + delta_b
    sum_ab := s.sum_ab + delta_a * delta_b
    sq_sum_a := s.sq_sum_a + p.1 * p.1
    sq_sum_b := s.sq_sum_b + p.2 * p.2 }

/-- `correlation` from `utilities.cpp`: `none` for mismatched lengths, `none`
when every paired value is zero, otherwise run the summation loop and return
`numerator / denominator`, with `none` when the denominator is zero.
(`sqrt` of a negative argument yields `NaN` in C and the comparison
`NaN == 0.0f` is false, so the quotient is `NaN`; `Real.sqrt` of a negative
argument is `0`, which the zero test turns into `none`: both sides report
`NaN` there.) -/
noncomputable def correlation (a b : List ℝ) : Option ℝ :=
  if a.length ≠ b.length then none
  else if ∀ p ∈ a.zip b, p.1 = 0 ∧ p.2 = 0 then none
  else
    let s := (a.zip b).foldl corrStep ⟨0, 0, 0, 0, 0⟩
    let n : ℝ := a.length
    let numerator := s.sum_ab - s.sum_a * s.sum_b / n
    let denominator :=
      Real.sqrt ((s.sq_sum_a - s.sum_a * s.sum_a / n) *
        (s.sq_sum_b - s.sum_b * s.sum_b / n))
    if denominator = 0 then none else some (numerator / denominator)

/-- `calculateCorrelationVectors` from `utilities.cpp`: resize both input
sequences to the shorter length, then per axis extract the flat value lists
and correlate them.  The result is the `array<float, 3>` of per-axis
correlations. -/
noncomputable def calculateCorrelationVectors (vec1 vec2 : List RSample) :
    Fin 3 → Option ℝ :=
  let m := min vec1.length vec2.length
  let v1 := vec1.take m
  let v2 := vec2.take m
  fun i => correlation (v1.map (axisVal i)) (v2.map (axisVal i))

/-! ## Unlock path (`src/main.cpp`, `UNLOCK_FLAG` branch of
`gyroscope_thread`) -/

/-- The three outcomes the unlock branch can display. -/
inductive UnlockOutcome : Type
  | noKey     -- "NO KEY SAVED."
  | success   -- "UNLOCK: SUCCESS"
  | failed    -- "UNLOCK: FAILED"
deriving DecidableEq

/-- The counting loop of the unlock branch: `unlock_count` is the number of
axes whose correlation strictly exceeds the threshold.  In C a `NaN`
correlation compares false against any threshold, so a `none` axis is never
counted. -/
noncomputable def unlock_count (corr : Fin 3 → Option ℝ) (t : ℝ) : ℕ :=
  (Finset.univ.filter fun i =>
    match corr i with
    | none => False
    | some v => v > t).card

/-- The `UNLOCK_FLAG` branch of `gyroscope_thread`, compared against the
stored key `gesture_key` with threshold `t` (`CORRELATION_THRESHOLD` from the
absent `system_config.h`): if no key is stored the outcome is `noKey`;
otherwise both the stored key and the attempt are resized to the common
minimum length and normalised **in place**, correlated per axis, and the
attempt succeeds iff `unlock_count == 3`.  The function returns the final
contents of `gesture_key` together with the outcome. -/
noncomputable def unlock_attempt (gesture_key unlocking_record : List RSample)
    (t : ℝ) : List RSample × UnlockOutcome :=
  if gesture_key = [] then (gesture_key, UnlockOutcome.noKey)
  else
    let target_size := min gesture_key.length unlocking_record.length
    let key2 := Sentry.normalize (gesture_key.take target_size)
    let att2 := Sentry.normalize (unlocking_record.take target_size)
    let corr := calculateCorrelationVectors key2 att2
    (key2, if unlock_count corr t = 3 then UnlockOutcome.success
           else UnlockOutcome.failed)

/-! ## Theorems -/

/-! ### Calibration lemmas -/

theorem wrap16_eq_self {x : ℤ} (h1 : -32768 ≤ x) (h2 : x ≤ 32767) :
    wrap16 x = x := by
  unfold wrap16
  have h3 : (0 : ℤ) ≤ x + 32768 := by omega
  have h4 : x + 32768 < 65536 := by omega
  rw [Int.emod_eq_of_lt h3 h4]
  ring

theorem calib_fold_const (v t0 : ℤ) (hlo : -256 ≤ v) (hhi : v ≤ 255) :
    ∀ k : ℕ, k ≤ 128 →
      (List.range k).foldl (fun st _ => calibStep st v) (0, t0) =
        (k * v, if k = 0 then t0 else max t0 v) := by
  intro k
  induction k with
  | zero => intro _; simp
  | succ n ih =>
    intro hk
    have hn : n ≤ 128 := by omega
    rw [List.range_succ, List.foldl_append, ih hn]
    simp only [List.foldl_cons, List.foldl_nil, calibStep]
    have hb1 : -32768 ≤ (n : ℤ) * v + v := by nlinarith [Int.ofNat_nonneg n]
    have hb2 : (n : ℤ) * v + v ≤ 32767 := by
      have hn' : (n : ℤ) ≤ 127 := by exact_mod_cast Nat.lt_succ_iff.mp (by omega)
      nlinarith [Int.ofNat_nonneg n]
    rw [wrap16_eq_self hb1 hb2, Prod.mk.injEq]
    constructor
    · push_cast; ring
    · cases n with
      | zero => simp
      | succ m => simp [max_assoc]

theorem calibrateAxis_const (v t0 : ℤ) (hlo : -256 ≤ v) (hhi : v ≤ 255) :
    calibrateAxis t0 (fun _ => v) = (v, max t0 v) := by
  unfold calibrateAxis
  rw [calib_fold_const v t0 hlo hhi 128 le_rfl]
  simp only [shr7]
  rw [Prod.mk.injEq]
  constructor
  · show Int.fdiv (128 * v) 128 = v
    exact Int.mul_fdiv_cancel_left v (by norm_num)
  · simp

/-! ### C4, C5, C7, C8 -/

theorem trimInactive_zero : trimInactive (0 : QSample) = true := by
  unfold trimInactive trim_threshold
  simp only [decide_eq_true_eq, abs_zero]
  norm_num

/-- C4: refuted on the code.  The first scan of `trim_gyro_data` dereferences
`*ptr` before any bounds test, so on an input with no active sample — the
empty sequence, or a single all-zero sample — it dereferences past the end of
the vector (modelled by `none`) instead of accessing only in-bounds elements
and leaving the sequence empty. -/
theorem C4_trim_oob_on_inactive :
    trim_gyro_data [] = none ∧ trim_gyro_data [((0 : ℚ), 0, 0)] = none := by
  constructor
  · rfl
  · simp [trim_gyro_data, firstActive, trimInactive_zero]

/-- C5: refuted on the code.  First, a fully inactive recording never reaches
the save: `trim_gyro_data` dereferences out of bounds on it (`none`).
Second, the save branch has no emptiness check: handed an empty trimmed
sequence, it destroys the previously stored key, installs the empty sequence
as the new key and reports "New key saved." — it never rejects. -/
theorem C5_empty_save_not_rejected :
    record_save [((1 : ℚ), 0, 0)] [] = ([], SaveOutcome.newSaved) ∧
      record_session [((1 : ℚ), 0, 0)] [((0 : ℚ), 0, 0)] = none := by
  constructor
  · rfl
  · simp [record_session, trim_gyro_data, firstActive, trimInactive_zero]

set_option maxRecDepth 4000 in
/-- C7: counterexample.  On a constant stream of `v = -1` with the threshold
globals still holding their boot value 0, the running maximum starts from 0
(not from the type's minimum), so the computed noise thresholds are 0 on
every axis, not `v`. -/
theorem C7_counterexample :
    (CalibrateGyroscope (0, 0, 0) (fun _ => (-1, -1, -1))).2 ≠ (-1, -1, -1) := by
  decide

/-- C7 (amended): for a constant stream of value `v` with `-256 ≤ v ≤ 255`
(so that the 128-fold sum fits the `int16_t` accumulator) and prior threshold
globals `x0, y0, z0`, calibration yields `bias = v` on each axis and
`noise_threshold = max (prior, v)` on each axis — the running maximum
continues from the prior global value rather than being re-seeded. -/
theorem C7_amended_calibration_const (v x0 y0 z0 : ℤ)
    (hlo : -256 ≤ v) (hhi : v ≤ 255) :
    CalibrateGyroscope (x0, y0, z0) (fun _ => (v, v, v)) =
      ((v, v, v), (max x0 v, max y0 v, max z0 v)) := by
  have hx := calibrateAxis_const v x0 hlo hhi
  have hy := calibrateAxis_const v y0 hlo hhi
  have hz := calibrateAxis_const v z0 hlo hhi
  simp only [CalibrateGyroscope, hx, hy, hz]

/-- Witness for `C7_amended_calibration_const` at `v = -1` with prior
thresholds `(-5, 0, 3)`. -/
theorem C7_amended_witness :
    (-256 ≤ (-1 : ℤ)) ∧ ((-1 : ℤ) ≤ 255) ∧
      CalibrateGyroscope (-5, 0, 3) (fun _ => (-1, -1, -1)) =
        ((-1, -1, -1), (-1, 0, 3)) :=
  ⟨by decide, by decide, by
    have h := C7_amended_calibration_const (-1) (-5) 0 3 (by decide) (by decide)
    rw [h]
    decide⟩

/-- C8: refuted on the code.  With an unrecognized full-scale selector,
`InitiateGyroscope` falls through the `switch` (which has no `default`),
leaves `sensitivity` exactly as it was — 0.0 at boot, or a stale usable value
from an earlier initialisation — and then runs calibration to completion;
no configuration failure is surfaced to the caller (the function returns
`void`). -/
theorem C8_unrecognized_selector_silent :
    InitiateGyroscope (FullScaleSel.other 153) bootGyroState =
        ⟨0, true⟩ ∧
      InitiateGyroscope (FullScaleSel.other 153) ⟨SENSITIVITY_500, true⟩ =
        ⟨SENSITIVITY_500, true⟩ := by
  constructor <;> rfl

/-! ### C10: moving-average filter invariant -/

theorem sum_update_fin5 (f : Fin 5 → ℚ) (i : Fin 5) (b : ℚ) :
    (∑ x, Function.update f i b x) = b + (∑ x, f x) - f i := by
  rw [Finset.sum_update_of_mem (Finset.mem_univ i), Finset.sdiff_singleton_eq_erase,
    Finset.sum_erase_eq_sub (Finset.mem_univ i)]
  ring

theorem filter_step_inv (v : ℚ) (st : FilterState)
    (h : st.sum = ∑ i, st.buffer i) :
    (movingAverageFilter v st).2.sum = ∑ i, (movingAverageFilter v st).2.buffer i := by
  simp only [movingAverageFilter]
  rw [sum_update_fin5, h]
  ring

theorem pushAll_sum_inv (xs : List ℚ) :
    ∀ st : FilterState, st.sum = ∑ i, st.buffer i →
      (pushAll xs st).sum = ∑ i, (pushAll xs st).buffer i := by
  induction xs with
  | nil => intro st h; simpa [pushAll] using h
  | cons x rest ih =>
    intro st h
    have hstep := filter_step_inv x st h
    simpa [pushAll, List.foldl_cons] using ih _ hstep

theorem pushAll_index_lt (xs : List ℚ) :
    ∀ st : FilterState, st.index < 5 → (pushAll xs st).index < 5 := by
  induction xs with
  | nil => intro st h; simpa [pushAll] using h
  | cons x rest ih =>
    intro st h
    have hstep : (movingAverageFilter x st).2.index < 5 := Nat.mod_lt _ (by norm_num)
    simpa [pushAll, List.foldl_cons] using ih _ hstep

/-- C10: confirmed.  Starting from the zero-initialised filter state, after
every sequence of pushes the running sum equals the sum of the five window
entries and the ring index stays below `WINDOW_SIZE`; consequently, pushing
five identical values `v` makes the fifth returned average exactly `v`. -/
theorem C10_moving_average_invariant :
    (∀ xs : List ℚ,
        (pushAll xs initFilterState).sum = ∑ i, (pushAll xs initFilterState).buffer i ∧
          (pushAll xs initFilterState).index < 5) ∧
      ∀ v : ℚ,
        (movingAverageFilter v (pushAll (List.replicate 4 v) initFilterState)).1 = v := by
  constructor
  · intro xs
    refine ⟨pushAll_sum_inv xs initFilterState ?_, pushAll_index_lt xs initFilterState ?_⟩
    · simp [initFilterState]
    · simp [initFilterState]
  · intro v
    simp only [List.replicate, pushAll, List.foldl_cons, List.foldl_nil,
      movingAverageFilter, initFilterState, Function.update]
    norm_num [Fin.ext_iff]
    ring

/-! ### C9: trimming is idempotent -/

theorem firstActive_lt {s : List QSample} {l : ℕ} (h : firstActive s = some l) :
    l < s.length := by
  induction s generalizing l with
  | nil => simp [firstActive] at h
  | cons p rest ih =>
    rw [firstActive] at h
    by_cases hp : trimInactive p = true
    · rw [if_pos hp] at h
      rcases Option.map_eq_some'.mp h with ⟨l', hl', heq⟩
      subst heq
      simpa using ih hl'
    · rw [if_neg hp] at h
      have hl0 : l = 0 := by simpa using h.symm
      subst hl0
      simp

theorem firstActive_active {s : List QSample} {l : ℕ} (h : firstActive s = some l) :
    trimInactive (s.getD l (0 : QSample)) = false := by
  induction s generalizing l with
  | nil => simp [firstActive] at h
  | cons p rest ih =>
    rw [firstActive] at h
    by_cases hp : trimInactive p = true
    · rw [if_pos hp] at h
      rcases Option.map_eq_some'.mp h with ⟨l', hl', heq⟩
      subst heq
      simpa [List.getD_cons_succ] using ih hl'
    · rw [if_neg hp] at h
      have hl0 : l = 0 := by simpa using h.symm
      subst hl0
      simp at hp
      simpa [List.getD_cons_zero] using hp

theorem firstActive_prefix {s : List QSample} {l : ℕ} (h : firstActive s = some l) :
    ∀ j, j < l → trimInactive (s.getD j (0 : QSample)) = true := by
  induction s generalizing l with
  | nil => simp [firstActive] at h
  | cons p rest ih =>
    rw [firstActive] at h
    by_cases hp : trimInactive p = true
    · rw [if_pos hp] at h
      rcases Option.map_eq_some'.mp h with ⟨l', hl', heq⟩
      subst heq
      intro j hj
      cases j with
      | zero => simpa using hp
      | succ j' => simpa [List.getD_cons_succ] using ih hl' j' (by omega)
    · rw [if_neg hp] at h
      have hl0 : l = 0 := by simpa using h.symm
      subst hl0
      intro j hj
      omega

theorem firstActive_cons_of_active {p : QSample} {rest : List QSample}
    (hp : trimInactive p = false) : firstActive (p :: rest) = some 0 := by
  rw [firstActive, if_neg (by simp [hp])]

/-- C9: confirmed.  Trimming is idempotent as a Kleisli endomorphism: the
result of a successful trim starts and ends with an active sample, so a
second trim returns it unchanged; and a trim that dereferences out of bounds
(`none`) stays `none`. -/
theorem C9_trim_idempotent (s : List QSample) :
    (trim_gyro_data s).bind trim_gyro_data = trim_gyro_data s := by
  cases hf : firstActive s with
  | none => simp [trim_gyro_data, hf]
  | some l =>
    cases hr : firstActive s.reverse with
    | none => simp [trim_gyro_data, hf, hr]
    | some k =>
      have hl : l < s.length := firstActive_lt hf
      have hk : k < s.length := by simpa using firstActive_lt hr
      have hn : 0 < s.length := by omega
      obtain ⟨r, hrdef⟩ : ∃ r, s.length - 1 - k = r := ⟨_, rfl⟩
      have hrlt : r < s.length := by omega
      -- s[r] is active
      have hract : trimInactive (s.getD r (0 : QSample)) = false := by
        have h1 := firstActive_active hr
        have h2 : s.reverse.getD k (0 : QSample) = s.getD r (0 : QSample) := by
          rw [List.getD_eq_getElem s.reverse _ (by simpa using hk),
            List.getD_eq_getElem s _ hrlt]
          have h3 := List.getElem_reverse (l := s) (i := k) (by simpa using hk)
          rw [h3]
          congr 1
        rwa [h2] at h1
      -- the left bound precedes the right bound
      have hlact : trimInactive (s.getD l (0 : QSample)) = false := firstActive_active hf
      have hlr : l ≤ r := by
        by_contra hcon
        push_neg at hcon
        have := firstActive_prefix hf r hcon
        rw [this] at hract
        exact Bool.true_eq_false.mp hract
      obtain ⟨t, htdef⟩ : ∃ t, (s.drop l).take (r - l + 1) = t := ⟨_, rfl⟩
      have htrim : trim_gyro_data s = some t := by
        simp only [trim_gyro_data, hf, hr]
        rw [hrdef, htdef]
      have htlen : t.length = r - l + 1 := by
        rw [← htdef]
        simp only [List.length_take, List.length_drop]
        omega
      have htpos : 0 < t.length := by omega
      -- the head of t is s[l], which is active
      have ht0 : t.getD 0 (0 : QSample) = s.getD l (0 : QSample) := by
        rw [← htdef]
        rw [List.getD_eq_getElem _ _ (by rw [htdef]; exact htpos),
          List.getD_eq_getElem s _ hl]
        rw [List.getElem_take, List.getElem_drop]
        simp
      -- the last element of t is s[r], which is active
      have htlast : t.getD (r - l) (0 : QSample) = s.getD r (0 : QSample) := by
        rw [← htdef]
        rw [List.getD_eq_getElem _ _ (by rw [htdef]; omega),
          List.getD_eq_getElem s _ hrlt]
        rw [List.getElem_take, List.getElem_drop]
        congr 1
        omega
      -- a second trim finds index 0 from both ends
      obtain ⟨x, t', htx⟩ : ∃ x t', t = x :: t' := by
        cases t with
        | nil => simp at htpos
        | cons a b => exact ⟨a, b, rfl⟩
      have hx : trimInactive x = false := by
        have hx0 : t.getD 0 (0 : QSample) = x := by rw [htx]; rfl
        rw [hx0] at ht0
        rw [ht0]
        exact hlact
      have hft : firstActive t = some 0 := by
        rw [htx]
        exact firstActive_cons_of_active hx
      obtain ⟨y, ys, hty⟩ : ∃ y ys, t.reverse = y :: ys := by
        cases hrev : t.reverse with
        | nil =>
          have : t.length = 0 := by simpa using congrArg List.length hrev
          omega
        | cons a b => exact ⟨a, b, rfl⟩
      have hy : trimInactive y = false := by
        have h0 : t.reverse.getD 0 (0 : QSample) = y := by rw [hty]; rfl
        have h1 : t.reverse.getD 0 (0 : QSample) = t.getD (r - l) (0 : QSample) := by
          rw [List.getD_eq_getElem t.reverse _ (by simpa using htpos),
            List.getD_eq_getElem t _ (by omega)]
          have h2 := List.getElem_reverse (l := t) (i := 0) (by simpa using htpos)
          rw [h2]
          congr 1
          omega
        rw [← h0, h1, htlast]
        exact hract
      have hfr : firstActive t.reverse = some 0 := by
        rw [hty]
        exact firstActive_cons_of_active hy
      -- assemble: the second trim is the identity on t
      rw [htrim, Option.some_bind]
      simp only [trim_gyro_data, hft, hfr, List.drop_zero, Nat.sub_zero]
      rw [show t.length - 1 + 1 = t.length by omega, List.take_length]

/-! ### C1, C3: the correlation engine is not Pearson -/

/-- C1: refuted on the code.  The "Kahan" update `sum_a += (a[i] - sum_a)`
overwrites the accumulator with the current element instead of summing, so
the function does not compute the Pearson correlation coefficient: for
`a = b = [1, 2]` (nonzero variance, not all-zero, exactly representable in
`float`) it returns 0 where Pearson self-correlation is 1. -/
theorem C1_correlation_self_not_one :
    correlation [(1 : ℝ), 2] [(1 : ℝ), 2] = some 0 := by
  unfold correlation
  rw [if_neg (by simp)]
  rw [if_neg (by
    intro hall
    have h1 := hall ((1 : ℝ), (1 : ℝ)) (by simp [List.zip])
    simp at h1)]
  norm_num [List.zip, corrStep]

/-- C3: refuted on the code.  For the constant sequences `a = b = [1, 1]`
(zero variance, so the claim demands NaN) the broken summation makes the
computed denominator nonzero and the function returns the ordinary value
1/3 instead of NaN. -/
theorem C3_zero_variance_not_nan :
    correlation [(1 : ℝ), 1] [(1 : ℝ), 1] = some (1 / 3) := by
  unfold correlation
  rw [if_neg (by simp)]
  rw [if_neg (by
    intro hall
    have h1 := hall ((1 : ℝ), (1 : ℝ)) (by simp [List.zip])
    simp at h1)]
  have h9 : Real.sqrt 9 = 3 := by
    rw [show (9 : ℝ) = 3 ^ 2 by norm_num, Real.sqrt_sq (by norm_num : (0 : ℝ) ≤ 3)]
  have h4 : Real.sqrt 4 = 2 := by
    rw [show (4 : ℝ) = 2 ^ 2 by norm_num, Real.sqrt_sq (by norm_num : (0 : ℝ) ≤ 2)]
  norm_num [List.zip, corrStep, h9, h4]

/-! ### C2: the unlock decision rule -/

theorem unlock_count_eq_three_iff (corr : Fin 3 → Option ℝ) (t : ℝ) :
    unlock_count corr t = 3 ↔ ∀ i : Fin 3, ∃ v, corr i = some v ∧ v > t := by
  unfold unlock_count
  constructor
  · intro h i
    have huniv : (Finset.univ.filter fun i =>
        match corr i with
        | none => False
        | some v => v > t) = Finset.univ := by
      apply Finset.eq_univ_of_card
      rw [h]
      simp
    have hi : i ∈ (Finset.univ.filter fun i =>
        match corr i with
        | none => False
        | some v => v > t) := by
      rw [huniv]
      exact Finset.mem_univ i
    have hmatch := (Finset.mem_filter.mp hi).2
    cases hci : corr i with
    | none => rw [hci] at hmatch; exact absurd hmatch (by simp)
    | some v => exact ⟨v, rfl, by rw [hci] at hmatch; exact hmatch⟩
  · intro h
    have huniv : (Finset.univ.filter fun i =>
        match corr i with
        | none => False
        | some v => v > t) = Finset.univ := by
      apply Finset.filter_eq_self.mpr
      intro i _
      obtain ⟨v, hv, hvt⟩ := h i
      rw [hv]
      exact hvt
    rw [huniv]
    simp

/-- C2: confirmed.  For every unlock attempt against a nonempty stored key,
the outcome is `success` iff all three per-axis correlation results (computed
on the truncated, normalised sequences) carry a value strictly above the
threshold; an axis whose correlation is NaN (`none`) carries no such value,
so it fails and the unlock fails. -/
theorem C2_unlock_success_iff (gesture_key unlocking_record : List RSample)
    (t : ℝ) (hkey : gesture_key ≠ []) :
    (unlock_attempt gesture_key unlocking_record t).2 = UnlockOutcome.success ↔
      ∀ i : Fin 3, ∃ v,
        calculateCorrelationVectors
          (Sentry.normalize
            (gesture_key.take (min gesture_key.length unlocking_record.length)))
          (Sentry.normalize
            (unlocking_record.take (min gesture_key.length unlocking_record.length)))
          i = some v ∧ v > t := by
  rw [← unlock_count_eq_three_iff]
  simp only [unlock_attempt]
  rw [if_neg hkey]
  by_cases hc : unlock_count
      (calculateCorrelationVectors
        (Sentry.normalize
          (gesture_key.take (min gesture_key.length unlocking_record.length)))
        (Sentry.normalize
          (unlocking_record.take (min gesture_key.length unlocking_record.length))))
      t = 3
  · simp [hc]
  · simp [hc]

/-- Witness for `C2_unlock_success_iff` at a concrete one-sample key and
attempt with threshold 1/2. -/
theorem C2_witness :
    ([((1 : ℝ), 0, 0)] ≠ ([] : List RSample)) ∧
      ((unlock_attempt [((1 : ℝ), 0, 0)] [((1 : ℝ), 0, 0)] (1 / 2)).2 =
          UnlockOutcome.success ↔
        ∀ i : Fin 3, ∃ v,
          calculateCorrelationVectors
            (Sentry.normalize
              ([((1 : ℝ), 0, 0)].take
                (min (List.length [((1 : ℝ), 0, 0)]) (List.length [((1 : ℝ), 0, 0)]))))
            (Sentry.normalize
              ([((1 : ℝ), 0, 0)].take
                (min (List.length [((1 : ℝ), 0, 0)]) (List.length [((1 : ℝ), 0, 0)]))))
            i = some v ∧ v > 1 / 2) :=
  ⟨by simp, C2_unlock_success_iff [((1 : ℝ), 0, 0)] [((1 : ℝ), 0, 0)] (1 / 2) (by simp)⟩

/-! ### C6: the stored key is mutated by an unlock comparison -/

/-- C6: counterexample.  With stored key `[(1,0,0), (1,0,0)]` and a
one-sample attempt, the unlock branch resizes the stored key itself to the
common minimum length (and normalises it in place), so after the comparison
`gesture_key` has length 1 and differs from its prior two-sample contents. -/
theorem C6_counterexample :
    (unlock_attempt [((1 : ℝ), 0, 0), ((1 : ℝ), 0, 0)] [((1 : ℝ), 0, 0)]
        (1 / 2)).1 ≠
      [((1 : ℝ), 0, 0), ((1 : ℝ), 0, 0)] := by
  intro h
  have hlen := congrArg List.length h
  simp [unlock_attempt, Sentry.normalize] at hlen

/-- C6 (amended): the stored key is mutated not only by save and erase but
also by every unlock comparison performed while a key is stored: after the
comparison the stored key equals the in-place normalisation of its first
`min(key.length, attempt.length)` samples, so in particular its length is
that common minimum, not its prior length. -/
theorem C6_amended_unlock_mutates_key (gesture_key unlocking_record : List RSample)
    (t : ℝ) (hkey : gesture_key ≠ []) :
    (unlock_attempt gesture_key unlocking_record t).1 =
        Sentry.normalize
          (gesture_key.take (min gesture_key.length unlocking_record.length)) ∧
      (unlock_attempt gesture_key unlocking_record t).1.length =
        min (min gesture_key.length unlocking_record.length) gesture_key.length := by
  constructor
  · simp only [unlock_attempt]
    rw [if_neg hkey]
  · simp only [unlock_attempt]
    rw [if_neg hkey]
    simp [Sentry.normalize]

/-- Witness for `C6_amended_unlock_mutates_key` at a concrete two-sample key
and one-sample attempt. -/
theorem C6_amended_witness :
    ([((1 : ℝ), 0, 0), ((1 : ℝ), 0, 0)] ≠ ([] : List RSample)) ∧
      ((unlock_attempt [((1 : ℝ), 0, 0), ((1 : ℝ), 0, 0)] [((1 : ℝ), 0, 0)]
            (1 / 2)).1 =
          Sentry.normalize
            ([((1 : ℝ), 0, 0), ((1 : ℝ), 0, 0)].take
              (min (List.length [((1 : ℝ), 0, 0), ((1 : ℝ), 0, 0)])
                (List.length [((1 : ℝ), 0, 0)]))) ∧
        (unlock_attempt [((1 : ℝ), 0, 0), ((1 : ℝ), 0, 0)] [((1 : ℝ), 0, 0)]
              (1 / 2)).1.length =
          min
            (min (List.length [((1 : ℝ), 0, 0), ((1 : ℝ), 0, 0)])
              (List.length [((1 : ℝ), 0, 0)]))
            (List.length [((1 : ℝ), 0, 0), ((1 : ℝ), 0, 0)])) :=
  ⟨by simp,
    C6_amended_unlock_mutates_key [((1 : ℝ), 0, 0), ((1 : ℝ), 0, 0)]
      [((1 : ℝ), 0, 0)] (1 / 2) (by simp)⟩
